import Mathlib

/-!
Verification of the transcript segmentation and formatting engine of the
obsidian-YouTube-transcript plugin: a shallow embedding of `formatTranscript`,
`formatTimestamp` and the frontmatter-aware insertion logic of `src/main.ts`,
and of the interactive grouping loop of `setEphemeralState` in
`src/transcript-view.ts`, together with theorems about them.

Conventions of the embedding:
* caption fragments are `Line` values: a text and a millisecond offset
  (the data model guarantees integer offsets, so `Nat`);
* the cadence (`timestampMod` setting) is an `Int`, since the settings store
  accepts any parsed integer;
* JavaScript `x % c === 0` on a non-negative integer `x` is `jsEqZeroMod`:
  for `c = 0` the remainder is NaN and the comparison is false, for negative
  `c` the remainder carries the dividend sign, so only `|c|` matters;
* JavaScript numbers appearing as fractional seconds are rationals, with
  `Math.floor` embedded as the floor into `Int` and `%` as truncated
  remainder.
-/

/-- One caption fragment, as produced by the caption source:
`{ text, offset }` with the offset in milliseconds. -/
structure Line where
  text : String
  offset : Nat
deriving DecidableEq, Repr

/-- One emitted interactive block: the anchor offset (`quoteTimeOffset` at
flush time, in milliseconds) and the merged quote text. -/
structure Block where
  startOffset : Nat
  mergedText : String
deriving DecidableEq, Repr

/-- JavaScript `i % c === 0` for a non-negative integer `i` and an integer
cadence `c`: false when `c = 0` (the remainder is NaN), otherwise the
remainder has the sign of the dividend so the test only sees `|c|`. -/
def jsEqZeroMod (i : Nat) (c : Int) : Bool :=
  if c = 0 then false else decide (i % c.natAbs = 0)

/-- JavaScript truncation toward zero of a rational number. -/
def jsTrunc (q : Rat) : Int :=
  if 0 ≤ q then ⌊q⌋ else - ⌊-q⌋

/-- JavaScript `a % b`: truncated remainder, `a - b * trunc (a / b)`. -/
def jsMod (a b : Rat) : Rat := a - b * (jsTrunc (a / b) : Rat)

/-- JavaScript `s.padStart(2, "0")`. -/
def padStart2 (s : String) : String :=
  if 2 ≤ s.length then s else String.mk (List.replicate (2 - s.length) '0') ++ s

/-- `formatTimestamp` of `src/main.ts` (lines 151-161): hours, minutes and
seconds by `Math.floor`, rendered `H:MM:SS` when hours are positive and
`M:SS` otherwise, minutes and seconds padded to width 2 (hours and the
leading minutes unpadded). -/
def formatTimestamp (seconds : Rat) : String :=
  let hrs := ⌊seconds / 3600⌋
  let mins := ⌊(jsMod seconds 3600) / 60⌋
  let secs := ⌊jsMod seconds 60⌋
  if 0 < hrs then
    toString hrs ++ ":" ++ padStart2 (toString mins) ++ ":" ++ padStart2 (toString secs)
  else
    toString mins ++ ":" ++ padStart2 (toString secs)

/-- `transcript.title || "YouTube Transcript"` of `src/main.ts` line 128:
an absent or empty (falsy) title falls back to the default. -/
def titleFallback (title : Option String) : String :=
  match title with
  | some t => if t = "" then "YouTube Transcript" else t
  | none => "YouTube Transcript"

/-- One iteration of the `forEach` in `formatTranscript` (lines 133-146):
prepend a bold timestamp marker when `index % timestampMod === 0`, always
append the text and a space, and append a paragraph break when
`(index + 1) % (timestampMod * 1) === 0`. -/
def mdStep (c : Int) (acc : String) (il : Nat × Line) : String :=
  let i := il.1
  let line := il.2
  let acc1 :=
    if jsEqZeroMod i c then
      acc ++ "**[" ++ formatTimestamp ((line.offset : Rat) / 1000) ++ "]** "
    else acc
  let acc2 := acc1 ++ line.text ++ " "
  if jsEqZeroMod (i + 1) (c * 1) then acc2 ++ "\n\n" else acc2

/-- `formatTranscript` of `src/main.ts` (lines 126-149): the markdown header
followed by the folded body. -/
def formatTranscript (title : Option String) (url : String) (c : Int)
    (lines : List Line) : String :=
  let output := "## " ++ titleFallback title ++ "\n\n[Video Link](" ++ url ++ ")\n\n"
  lines.enum.foldl (mdStep c) output

/-- One iteration of the grouping `forEach` in `setEphemeralState` of
`src/transcript-view.ts` (lines 81-134), acting on the state
`(blocks so far, quote, quoteTimeOffset)`: index 0 only buffers; an index
`i > 0` with `i % timestampMod == 0` emits the buffered block and restarts
the buffer at the current fragment; otherwise the fragment is appended to
the buffer. -/
def interStep (c : Int) (st : List Block × String × Nat) (il : Nat × Line) :
    List Block × String × Nat :=
  let bs := st.1
  let quote := st.2.1
  let qOff := st.2.2
  let i := il.1
  let line := il.2
  if i = 0 then (bs, quote ++ line.text ++ " ", line.offset)
  else if jsEqZeroMod i c then
    (bs ++ [⟨qOff, quote⟩], line.text ++ " ", line.offset)
  else (bs, quote ++ line.text ++ " ", qOff)

/-- The full grouping loop of `setEphemeralState`, started from the source's
initial state `quote = ""`, `quoteTimeOffset = 0`, no blocks emitted. -/
def interFold (c : Int) (lines : List Line) : List Block × String × Nat :=
  lines.enum.foldl (interStep c) ([], "", 0)

/-- The blocks the interactive loop emits (appends to the DOM). -/
def setEphemeralBlocks (c : Int) (lines : List Line) : List Block :=
  (interFold c lines).1

/-- The buffer `quote` left over when the interactive loop ends. -/
def setEphemeralQuote (c : Int) (lines : List Line) : String :=
  (interFold c lines).2.1

/-- The buffer anchor `quoteTimeOffset` left over when the loop ends. -/
def setEphemeralQuoteOffset (c : Int) (lines : List Line) : Nat :=
  (interFold c lines).2.2

/-- Fragment texts each followed by one joining space, concatenated. -/
def joinSp : List Line → String
  | [] => ""
  | l :: ls => l.text ++ " " ++ joinSp ls

/-- Plain concatenation of a list of strings. -/
def strConcat : List String → String
  | [] => ""
  | s :: r => s ++ strConcat r

/-- Remove every space character: used to ignore the joining spaces the
renderers insert between fragment texts. -/
def dropSpaces (s : String) : String :=
  String.mk (s.data.filter (fun ch => ch != ' '))

/-- The block a run of consecutive fragments denotes: anchored at its first
fragment's offset, text merged with joining spaces. -/
def specBlock (chunk : List Line) : Block :=
  ⟨((chunk.head?).map Line.offset).getD 0, joinSp chunk⟩

/-- Closed form of the interactive loop's emitted blocks for cadence
`cN ≥ 1`: `⌊(n-1)/cN⌋` blocks, the k-th made of the `cN` consecutive
fragments starting at index `k·cN`. -/
def specInteractiveBlocks (cN : Nat) (lines : List Line) : List Block :=
  (List.range ((lines.length - 1) / cN)).map
    (fun k => specBlock ((lines.drop (k * cN)).take cN))

/-- The contribution of fragment `l` at index `i` to the markdown body, as
the spec words it: an optional leading bold timestamp marker when
`i mod cadence = 0`, the text and a space, and an optional paragraph break
when `(i+1) mod cadence = 0`. -/
def mdPiece (cN : Nat) (i : Nat) (l : Line) : String :=
  (if i % cN = 0 then "**[" ++ formatTimestamp ((l.offset : Rat) / 1000) ++ "]** "
   else "")
  ++ (l.text ++ " ")
  ++ (if (i + 1) % cN = 0 then "\n\n" else "")

/-- The markdown body as the spec describes it: the pieces of the fragments,
indexed from `j`, concatenated in order. -/
def mdBodySpecFrom (cN : Nat) : Nat → List Line → String
  | _, [] => ""
  | j, l :: ls => mdPiece cN j l ++ mdBodySpecFrom cN (j + 1) ls

/-- Mathematical floor-remainder on rationals, as the spec's
`seconds mod 3600` reads. -/
def fmod (a b : Rat) : Rat := a - b * (⌊a / b⌋ : Rat)

/-- The timestamp format as claim C4 words it: floor at each unit with
mathematical mod, `H:MM:SS` when hours are positive, else `M:SS`. -/
def specTimestamp (s : Rat) : String :=
  let hours := ⌊s / 3600⌋
  let minutes := ⌊fmod s 3600 / 60⌋
  let secs := ⌊fmod s 60⌋
  if 0 < hours then
    toString hours ++ ":" ++ padStart2 (toString minutes) ++ ":" ++ padStart2 (toString secs)
  else
    toString minutes ++ ":" ++ padStart2 (toString secs)

/-- Value of a leading run of decimal digits; `none` when there is none.
Part of the model of `Number.parseInt`. -/
def digitsVal (s : List Char) : Option Nat :=
  let ds := s.takeWhile Char.isDigit
  if ds = [] then none
  else some (ds.foldl (fun acc d => acc * 10 + (d.toNat - 48)) 0)

/-- Model of JavaScript `Number.parseInt(value)` in radix 10: skip leading
whitespace, accept an optional sign, read leading digits; `none` is NaN. -/
def parseIntJS (s : String) : Option Int :=
  let t := s.data.dropWhile (fun ch => ch = ' ' ∨ ch = '\t' ∨ ch = '\n' ∨ ch = '\r')
  match t with
  | '-' :: rest => (digitsVal rest).map (fun n => -(n : Int))
  | '+' :: rest => (digitsVal rest).map (fun n => (n : Int))
  | rest => (digitsVal rest).map (fun n => (n : Int))

/-- The `onChange` handler of the "Timestamp interval" setting
(`src/main.ts` lines 198-208): `Number.parseInt` of the text, falling back
to 5 only when the parse is NaN. -/
def timestampModOnChange (value : String) : Int :=
  match parseIntJS value with
  | none => 5
  | some v => v

/-- Length of a JavaScript `\r?\n` match at position `i` of the document:
2 over a CRLF pair, 1 over a bare LF, none otherwise. -/
def nlLen (doc : List Char) (i : Nat) : Option Nat :=
  match doc.get? i, doc.get? (i + 1) with
  | some '\r', some '\n' => some 2
  | some '\n', _ => some 1
  | _, _ => none

/-- End position of the closing `---\r?\n` of the frontmatter pattern when
it matches at position `i`. -/
def tailMatch (doc : List Char) (i : Nat) : Option Nat :=
  if doc.get? i = some '-' ∧ doc.get? (i + 1) = some '-' ∧ doc.get? (i + 2) = some '-' then
    match nlLen doc (i + 3) with
    | some k => some (i + 3 + k)
    | none => none
  else none

/-- Backtracking search for the remainder `(?:.+?\r?\n)+?---\r?\n` of the
frontmatter regex of `src/main.ts` line 96, with the `s` flag (`.` matches
every character). `mode = true` is the state right after a completed
repetition, where the lazy outer quantifier first tries the closing
delimiter; `mode = false` grows the lazy `.+?` of the next repetition one
character at a time (`L` is its current length). The fuel only bounds the
search depth and is chosen large enough by the caller. -/
def fmSearch (doc : List Char) (fuel : Nat) : Bool → Nat → Nat → Option Nat :=
  match fuel with
  | 0 => fun _ _ _ => none
  | fuel' + 1 => fun mode pos L =>
    if mode then
      match tailMatch doc pos with
      | some e => some e
      | none => fmSearch doc fuel' false pos 1
    else
      if doc.length ≤ pos + L then none
      else
        match nlLen doc (pos + L) with
        | some k =>
          match fmSearch doc fuel' true (pos + L + k) 0 with
          | some e => some e
          | none => fmSearch doc fuel' false pos (L + 1)
        | none => fmSearch doc fuel' false pos (L + 1)

/-- `content.match(/^---\r?\n(?:.+?\r?\n)+?---\r?\n/s)` of `src/main.ts`
line 96: the length of the matched frontmatter prefix, or `none`. -/
def fmMatch (doc : List Char) : Option Nat :=
  if doc.get? 0 = some '-' ∧ doc.get? 1 = some '-' ∧ doc.get? 2 = some '-' then
    match nlLen doc 3 with
    | some k => fmSearch doc ((doc.length + 4) * (doc.length + 4)) false (3 + k) 1
    | none => none
  else none

/-- The frontmatter-aware insertion decision of `insertTranscript`
(`src/main.ts` lines 96-114): the effective insertion offset, and whether a
leading newline must be prepended to the inserted text. -/
def insertionPlan (content : String) (cursorOffset : Nat) : Nat × Bool :=
  match fmMatch content.data with
  | some frontmatterEnd =>
    if cursorOffset ≤ frontmatterEnd then
      (frontmatterEnd,
        ! decide ((content.data.drop frontmatterEnd).take 2 = ['\n', '\n']))
    else (cursorOffset, false)
  | none => (cursorOffset, false)

/-- A JavaScript line terminator, which `.` without the `s` flag does not
match. -/
def isJsLineTerm (ch : Char) : Bool :=
  ch = '\n' ∨ ch = '\r' ∨ ch = Char.ofNat 0x2028 ∨ ch = Char.ofNat 0x2029

/-- One `.+\n` repetition (no dotall) at position `pos`: a non-empty run of
non-terminator characters whose first terminator is a bare `\n`; returns the
position after that newline. -/
def specPiece (doc : List Char) (pos : Nat) : Option Nat :=
  let run := ((doc.drop pos).takeWhile (fun ch => ! isJsLineTerm ch)).length
  if run = 0 then none
  else if doc.get? (pos + run) = some '\n' then some (pos + run + 1) else none

/-- Lazy outer repetition of the spec's frontmatter pattern: after each
completed `.+\n` piece, first try the closing `---\n`, else read another
piece. -/
def specFmLoop (doc : List Char) : Nat → Nat → Option Nat
  | 0, _ => none
  | fuel + 1, pos =>
    match specPiece doc pos with
    | none => none
    | some p =>
      if doc.get? p = some '-' ∧ doc.get? (p + 1) = some '-'
          ∧ doc.get? (p + 2) = some '-' ∧ doc.get? (p + 3) = some '\n' then
        some (p + 4)
      else specFmLoop doc fuel p

/-- The frontmatter pattern exactly as the spec states it,
`^---\n(?:.+\n)+?---\n` with no flags: the length of the matched prefix, or
`none`. Stated from the spec's words for comparison with the source's
`fmMatch`. -/
def specFmMatch (doc : List Char) : Option Nat :=
  if doc.get? 0 = some '-' ∧ doc.get? 1 = some '-' ∧ doc.get? 2 = some '-'
      ∧ doc.get? 3 = some '\n' then
    specFmLoop doc (doc.length + 2) 4
  else none

/-- The interactive grouping loop restated as structural recursion over the
remaining fragments, for indices `j ≥ 1` (index 0 is handled by the caller):
a flush index emits the buffer and restarts it at the current fragment. -/
def interLoop (cN : Nat) : Nat → String → Nat → List Line → List Block × String × Nat
  | _, q, qo, [] => ([], q, qo)
  | j, q, qo, l :: ls =>
    if j % cN = 0 then
      let r := interLoop cN (j + 1) (l.text ++ " ") l.offset ls
      (⟨qo, q⟩ :: r.1, r.2)
    else interLoop cN (j + 1) (q ++ l.text ++ " ") qo ls

/-- Closed form of the loop state evolution when the next flush is `d`
fragments away: if the input ends before the flush, nothing is emitted and
everything joins the buffer; otherwise the buffer closed at the first flush
is followed by one block per full cadence-chunk, and the trailing fragments
stay in the buffer anchored at the fragment that reopened it. -/
def ilCore (cN d : Nat) (q : String) (qo : Nat) (ls : List Line) :
    List Block × String × Nat :=
  if ls.length ≤ d then ([], q ++ joinSp ls, qo)
  else
    let m := (ls.length - d - 1) / cN
    (⟨qo, q ++ joinSp (ls.take d)⟩ ::
        (List.range m).map (fun k => specBlock ((ls.drop (d + k * cN)).take cN)),
      joinSp (ls.drop (d + m * cN)),
      ((ls.get? (d + m * cN)).map Line.offset).getD qo)

/-- Closed form of `interLoop` from index `j`: the next flush is at the next
multiple of the cadence. -/
def ilSpec (cN : Nat) (j : Nat) (q : String) (qo : Nat) (ls : List Line) :
    List Block × String × Nat :=
  ilCore cN (if j % cN = 0 then 0 else cN - j % cN) q qo ls

/-- Three fragments, used as concrete input for cadence 2: the trailing
fragment does not fill a full group. -/
def exLines3 : List Line := [⟨"a", 0⟩, ⟨"b", 1000⟩, ⟨"c", 2000⟩]

/-- The spec's end-to-end example: five fragments one second apart. -/
def exLines5 : List Line :=
  [⟨"Hello", 0⟩, ⟨"world", 1000⟩, ⟨"foo", 2000⟩, ⟨"bar", 3000⟩, ⟨"baz", 4000⟩]

/-- A document whose frontmatter uses CRLF line endings: the source's
`\r?\n`-tolerant pattern matches it, the spec's LF-only pattern does not. -/
def crlfDoc : String := "---\r\na\r\n---\r\nx"

/-- For non-negative dividend and divisor the JavaScript truncated remainder
agrees with the mathematical floor-remainder. -/
theorem jsMod_eq_fmod (s b : Rat) (hs : 0 ≤ s) (hb : 0 ≤ b) :
    jsMod s b = fmod s b := by
  unfold jsMod fmod jsTrunc
  rw [if_pos (div_nonneg hs hb)]

/-- On non-negative seconds the source's `formatTimestamp` computes exactly
the spec's floor-at-each-unit format. -/
theorem formatTimestamp_eq_specTimestamp (s : Rat) (hs : 0 ≤ s) :
    formatTimestamp s = specTimestamp s := by
  have h1 : jsMod s 3600 = fmod s 3600 := jsMod_eq_fmod s 3600 hs (by norm_num)
  have h2 : jsMod s 60 = fmod s 60 := jsMod_eq_fmod s 60 hs (by norm_num)
  simp only [formatTimestamp, specTimestamp, h1, h2]

/-- For a positive (cast) cadence the JavaScript zero-remainder test is the
ordinary `Nat` remainder test. -/
theorem jsEqZeroMod_coe (cN : Nat) (h : cN ≠ 0) (i : Nat) :
    jsEqZeroMod i (cN : Int) = decide (i % cN = 0) := by
  simp [jsEqZeroMod, h]

/-- With cadence 0 the JavaScript test `i % 0 === 0` is always false. -/
theorem jsEqZeroMod_zero (i : Nat) : jsEqZeroMod i 0 = false := rfl

/-- One markdown iteration appends exactly the fragment's piece. -/
theorem mdStep_eq_piece (cN : Nat) (h : cN ≠ 0) (acc : String) (j : Nat) (l : Line) :
    mdStep (cN : Int) acc (j, l) = acc ++ mdPiece cN j l := by
  simp only [mdStep, mdPiece, mul_one, jsEqZeroMod_coe cN h]
  by_cases h1 : j % cN = 0 <;> by_cases h2 : (j + 1) % cN = 0 <;>
    simp [h1, h2, String.append_assoc, String.append_empty]

/-- The markdown `forEach` fold, started at any index, appends the
concatenation of the remaining pieces. -/
theorem mdFold_from (cN : Nat) (h : cN ≠ 0) (ls : List Line) :
    ∀ (j : Nat) (acc : String),
      List.foldl (mdStep (cN : Int)) acc (List.enumFrom j ls)
        = acc ++ mdBodySpecFrom cN j ls := by
  induction ls with
  | nil => intro j acc; simp [mdBodySpecFrom, String.append_empty]
  | cons l ls ih =>
    intro j acc
    show List.foldl (mdStep _) (mdStep _ acc (j, l)) (List.enumFrom (j + 1) ls) = _
    rw [ih (j + 1), mdStep_eq_piece cN h, mdBodySpecFrom, String.append_assoc]

theorem ilCore_run (cN e : Nat) (q : String) (qo : Nat) (l : Line) (ls : List Line) :
    ilCore cN (e + 1) q qo (l :: ls) = ilCore cN e (q ++ l.text ++ " ") qo ls := by
  have hdrop : ∀ i : Nat, (l :: ls).drop (e + 1 + i) = ls.drop (e + i) := by
    intro i
    rw [show e + 1 + i = (e + i) + 1 by omega, List.drop_succ_cons]
  have hget : ∀ i : Nat, (l :: ls).get? (e + 1 + i) = ls.get? (e + i) := by
    intro i
    rw [show e + 1 + i = (e + i) + 1 by omega]
    rfl
  simp only [ilCore, List.length_cons, Nat.add_le_add_iff_right]
  by_cases hle : ls.length ≤ e
  · rw [if_pos hle, if_pos hle]
    simp [joinSp, String.append_assoc]
  · rw [if_neg hle, if_neg hle]
    have hm : ls.length + 1 - (e + 1) - 1 = ls.length - e - 1 := by omega
    have h1 : (fun k => specBlock ((List.drop (e + 1 + k * cN) (l :: ls)).take cN))
        = fun k => specBlock ((List.drop (e + k * cN) ls).take cN) :=
      funext fun k => by rw [hdrop (k * cN)]
    rw [hm, List.take_succ_cons, hdrop ((ls.length - e - 1) / cN * cN),
      hget ((ls.length - e - 1) / cN * cN), h1]
    simp [joinSp, String.append_assoc]

theorem ilCore_flush (cN : Nat) (hc : cN ≠ 0) (q : String) (qo : Nat) (l : Line) (ls : List Line) :
    ilCore cN 0 q qo (l :: ls)
      = (⟨qo, q⟩ :: (ilCore cN (cN - 1) (l.text ++ " ") l.offset ls).1,
         (ilCore cN (cN - 1) (l.text ++ " ") l.offset ls).2) := by
  simp only [ilCore, List.length_cons, Nat.sub_zero, Nat.add_sub_cancel, Nat.zero_add,
    Nat.add_le_add_iff_right]
  rw [if_neg (by omega : ¬ ls.length + 1 ≤ 0)]
  by_cases hlt : ls.length < cN
  · rw [if_pos (by omega : ls.length ≤ cN - 1), Nat.div_eq_of_lt hlt]
    simp [specBlock, joinSp, String.append_empty, String.append_assoc]
  · have hge : cN ≤ ls.length := by omega
    rw [if_neg (by omega : ¬ ls.length ≤ cN - 1)]
    have hmm : ls.length - (cN - 1) - 1 = ls.length - cN := by omega
    have hdiv : ls.length / cN = (ls.length - cN) / cN + 1 :=
      Nat.div_eq_sub_div (by omega) hge
    rw [hmm, hdiv, List.range_succ_eq_map, List.map_cons, List.map_map]
    have hzero : (0 : Nat) * cN = 0 := by omega
    have htake : (l :: ls).take cN = l :: ls.take (cN - 1) := by
      conv_lhs => rw [show cN = cN - 1 + 1 by omega]
      rw [List.take_succ_cons]
    have hsucc : ∀ k : Nat,
        ((l :: ls).drop (Nat.succ k * cN)).take cN
          = (ls.drop (cN - 1 + k * cN)).take cN := by
      intro k
      have h2 := Nat.succ_mul k cN
      rw [show Nat.succ k * cN = (cN - 1 + k * cN) + 1 by omega, List.drop_succ_cons]
    have hidx : ((ls.length - cN) / cN + 1) * cN
        = (cN - 1 + (ls.length - cN) / cN * cN) + 1 := by
      have h2 := add_one_mul ((ls.length - cN) / cN) cN
      omega
    have hbound : cN - 1 + (ls.length - cN) / cN * cN < ls.length := by
      have h3 := Nat.div_mul_le_self (ls.length - cN) cN
      omega
    rw [hzero, hidx, List.drop_succ_cons]
    simp only [List.drop_zero, htake]
    have hcomp : (fun k => specBlock (((l :: ls).drop (k * cN)).take cN)) ∘ Nat.succ
        = fun k => specBlock ((ls.drop (cN - 1 + k * cN)).take cN) :=
      funext fun k => by simp [Function.comp, hsucc k]
    rw [hcomp]
    simp [specBlock, joinSp, String.append_empty, String.append_assoc,
      List.getElem?_eq_getElem hbound]

theorem nextDist_flush (cN j : Nat) (hc : cN ≠ 0) (hj : j % cN = 0) :
    (if (j + 1) % cN = 0 then 0 else cN - (j + 1) % cN) = cN - 1 := by
  have h1 : (j + 1) % cN = 1 % cN := by
    conv_lhs => rw [Nat.add_mod, hj]
    simp
  rcases Nat.lt_or_ge 1 cN with h2 | h2
  · rw [h1, Nat.mod_eq_of_lt h2, if_neg (by omega)]
  · have hc1 : cN = 1 := by omega
    subst hc1
    simp [h1]

theorem nextDist_run (cN j : Nat) (hc : cN ≠ 0) (hj : j % cN ≠ 0) :
    (if (j + 1) % cN = 0 then 0 else cN - (j + 1) % cN) = cN - j % cN - 1 := by
  have hr : j % cN < cN := Nat.mod_lt _ (by omega)
  have hc2 : 2 ≤ cN := by
    match cN, hc with
    | 1, _ => exact absurd (Nat.mod_one j) hj
    | n + 2, _ => omega
  have h1 : (j + 1) % cN = (j % cN + 1) % cN := by
    conv_lhs => rw [Nat.add_mod]
    rw [Nat.mod_eq_of_lt (show 1 < cN by omega)]
  by_cases hmax : j % cN + 1 = cN
  · rw [h1, hmax, Nat.mod_self, if_pos rfl]
    omega
  · rw [h1, Nat.mod_eq_of_lt (by omega), if_neg (by omega)]
    omega

theorem interLoop_eq_ilSpec (cN : Nat) (hc : cN ≠ 0) (ls : List Line) :
    ∀ (j : Nat) (q : String) (qo : Nat), interLoop cN j q qo ls = ilSpec cN j q qo ls := by
  induction ls with
  | nil =>
    intro j q qo
    simp [interLoop, ilSpec, ilCore, joinSp, String.append_empty]
  | cons l ls ih =>
    intro j q qo
    by_cases hj : j % cN = 0
    · simp only [interLoop, if_pos hj, ih]
      have hinner : ilSpec cN (j + 1) (l.text ++ " ") l.offset ls
          = ilCore cN (cN - 1) (l.text ++ " ") l.offset ls := by
        rw [ilSpec, nextDist_flush cN j hc hj]
      have houter : ilSpec cN j q qo (l :: ls) = ilCore cN 0 q qo (l :: ls) := by
        rw [ilSpec, if_pos hj]
      rw [hinner, houter, ilCore_flush cN hc]
    · simp only [interLoop, if_neg hj, ih]
      have hinner : ilSpec cN (j + 1) (q ++ l.text ++ " ") qo ls
          = ilCore cN (cN - j % cN - 1) (q ++ l.text ++ " ") qo ls := by
        rw [ilSpec, nextDist_run cN j hc hj]
      have houter : ilSpec cN j q qo (l :: ls)
          = ilCore cN ((cN - j % cN - 1) + 1) q qo (l :: ls) := by
        rw [ilSpec, if_neg hj]
        have hr : j % cN < cN := Nat.mod_lt _ (by omega)
        exact congrArg (fun d => ilCore cN d q qo (l :: ls)) (by omega)
      rw [hinner, houter, ilCore_run]

theorem interFold_eq (cN : Nat) (hc : cN ≠ 0) (ls : List Line) :
    ∀ (j : Nat), j ≠ 0 → ∀ (bs : List Block) (q : String) (qo : Nat),
      List.foldl (interStep (cN : Int)) (bs, q, qo) (List.enumFrom j ls)
        = (bs ++ (interLoop cN j q qo ls).1, (interLoop cN j q qo ls).2) := by
  induction ls with
  | nil =>
    intro j hj bs q qo
    simp [interLoop]
  | cons l ls ih =>
    intro j hj bs q qo
    have hstep : interStep (cN : Int) (bs, q, qo) (j, l)
        = if j % cN = 0 then (bs ++ [⟨qo, q⟩], l.text ++ " ", l.offset)
          else (bs, q ++ l.text ++ " ", qo) := by
      simp only [interStep, jsEqZeroMod_coe cN hc]
      rw [if_neg hj]
      by_cases hm : j % cN = 0 <;> simp [hm]
    show List.foldl _ (interStep (cN : Int) (bs, q, qo) (j, l)) (List.enumFrom (j + 1) ls) = _
    rw [hstep]
    by_cases hm : j % cN = 0
    · rw [if_pos hm, ih (j + 1) (by omega)]
      simp only [interLoop, if_pos hm]
      simp
    · rw [if_neg hm, ih (j + 1) (by omega)]
      simp only [interLoop, if_neg hm]

theorem interFold_closed (cN : Nat) (hc : cN ≠ 0) (lines : List Line) :
    interFold (cN : Int) lines
      = (specInteractiveBlocks cN lines,
         joinSp (lines.drop ((lines.length - 1) / cN * cN)),
         ((lines.get? ((lines.length - 1) / cN * cN)).map Line.offset).getD 0) := by
  cases lines with
  | nil => simp [interFold, specInteractiveBlocks, joinSp]
  | cons l ls =>
    show List.foldl _ (interStep (cN : Int) ([], "", 0) (0, l)) (List.enumFrom 1 ls) = _
    have h0 : interStep (cN : Int) ([], "", 0) (0, l) = ([], l.text ++ " ", l.offset) := by
      simp [interStep, String.empty_append]
    rw [h0, interFold_eq cN hc ls 1 (by omega), interLoop_eq_ilSpec cN hc ls 1,
      List.nil_append]
    have h1 : ilSpec cN 1 (l.text ++ " ") l.offset ls
        = ilCore cN (cN - 1) (l.text ++ " ") l.offset ls := by
      rw [ilSpec]
      exact congrArg (fun d => ilCore cN d (l.text ++ " ") l.offset ls)
        (nextDist_flush cN 0 hc (Nat.zero_mod cN))
    have h4 : ilCore cN 0 "" 0 (l :: ls)
        = (⟨0, ""⟩ :: specInteractiveBlocks cN (l :: ls),
           joinSp ((l :: ls).drop (((l :: ls).length - 1) / cN * cN)),
           (((l :: ls).get? (((l :: ls).length - 1) / cN * cN)).map Line.offset).getD 0) := by
      simp only [ilCore, specInteractiveBlocks]
      rw [if_neg (by simp : ¬ (l :: ls).length ≤ 0)]
      simp [String.append_empty, joinSp]
    have h5 := (ilCore_flush cN hc "" 0 l ls).symm.trans h4
    simp only [Prod.mk.injEq, List.cons.injEq] at h5
    rw [h1, h5.1.2, h5.2]

/-- With cadence 0 the markdown fold appends every text and a space and
nothing else: both remainder tests see NaN. -/
theorem mdFold_zero (ls : List Line) :
    ∀ (j : Nat) (acc : String),
      List.foldl (mdStep 0) acc (List.enumFrom j ls) = acc ++ joinSp ls := by
  induction ls with
  | nil =>
    intro j acc
    simp [joinSp, String.append_empty]
  | cons l ls ih =>
    intro j acc
    show List.foldl _ (mdStep 0 acc (j, l)) (List.enumFrom (j + 1) ls) = _
    have hstep : mdStep 0 acc (j, l) = acc ++ l.text ++ " " := by
      simp [mdStep, jsEqZeroMod]
    rw [hstep, ih (j + 1)]
    simp [joinSp, String.append_assoc]

/-- With cadence 0 the interactive fold, past index 0, only grows the
buffer: the flush test never fires. -/
theorem interFold_zero (ls : List Line) :
    ∀ (j : Nat), j ≠ 0 → ∀ (bs : List Block) (q : String) (qo : Nat),
      List.foldl (interStep 0) (bs, q, qo) (List.enumFrom j ls)
        = (bs, q ++ joinSp ls, qo) := by
  induction ls with
  | nil =>
    intro j hj bs q qo
    simp [joinSp, String.append_empty]
  | cons l ls ih =>
    intro j hj bs q qo
    show List.foldl _ (interStep 0 (bs, q, qo) (j, l)) (List.enumFrom (j + 1) ls) = _
    have hstep : interStep 0 (bs, q, qo) (j, l) = (bs, q ++ l.text ++ " ", qo) := by
      simp [interStep, jsEqZeroMod, hj]
    rw [hstep, ih (j + 1) (by omega)]
    simp [joinSp, String.append_assoc]

/-- With cadence 0 the whole interactive loop emits nothing and buffers
every fragment. -/
theorem interFold_zero_top (lines : List Line) :
    (interFold 0 lines).1 = [] ∧ (interFold 0 lines).2.1 = joinSp lines := by
  cases lines with
  | nil => exact ⟨rfl, rfl⟩
  | cons l ls =>
    have h0 : interStep 0 ([], "", 0) (0, l) = ([], l.text ++ " ", l.offset) := by
      simp [interStep, String.empty_append]
    have hfold : interFold 0 (l :: ls) = ([], (l.text ++ " ") ++ joinSp ls, l.offset) := by
      show List.foldl _ (interStep 0 ([], "", 0) (0, l)) (List.enumFrom 1 ls) = _
      rw [h0, interFold_zero ls 1 (by omega)]
    rw [hfold]
    exact ⟨rfl, rfl⟩

/-- The head of a cadence-chunk taken at an in-bounds position `i` is the
element at `i`. -/
theorem head_take_chunk (cN : Nat) (hc : cN ≠ 0) (lines : List Line) (i : Nat)
    (h : i < lines.length) :
    ((lines.drop i).take cN).head? = some (lines.get ⟨i, h⟩) := by
  match cN, hc with
  | e + 1, _ =>
    rw [← List.getElem_cons_drop lines i h, List.take_succ_cons]
    rfl

/-- A two-character prefix test rephrased through the characters at the
first two positions. -/
theorem take_two_eq_iff (l : List Char) :
    l.take 2 = ['\n', '\n'] ↔ (l.get? 0 = some '\n' ∧ l.get? 1 = some '\n') := by
  match l with
  | [] => simp
  | [a] => simp
  | a :: b :: rest => simp [List.take_succ_cons]

/-- C3: for every cadence ≥ 1, title, url and fragment list, the markdown
renderer produces the header `## {title or "YouTube Transcript"}`, blank
line, `[Video Link]({url})`, blank line, followed by the body obtained by
iterating the fragments with index `i`: a bold timestamp marker
`**[formatted(offsetMillis/1000)]** ` when `i mod cadence = 0`, always the
fragment text and one space, and two newlines when `(i+1) mod cadence = 0`. -/
theorem c3_markdown_renderer_structure (cN : Nat) (h : 1 ≤ cN) (title : Option String)
    (url : String) (lines : List Line) :
    formatTranscript title url (cN : Int) lines
      = "## " ++ titleFallback title ++ "\n\n[Video Link](" ++ url ++ ")\n\n"
        ++ mdBodySpecFrom cN 0 lines := by
  show List.foldl (mdStep (cN : Int)) _ (List.enumFrom 0 lines) = _
  exact mdFold_from cN (by omega) lines 0 _

/-- Witness for C3 at cadence 2 on the spec's five-fragment example. -/
theorem c3_markdown_renderer_structure_witness :
    formatTranscript none "URL" ((2 : Nat) : Int) exLines5
      = "## " ++ titleFallback none ++ "\n\n[Video Link](" ++ "URL" ++ ")\n\n"
        ++ mdBodySpecFrom 2 0 exLines5 :=
  c3_markdown_renderer_structure 2 (by decide) none "URL" exLines5

/-- C4: on every non-negative number of seconds `formatTimestamp` floors at
each unit (hours, minutes within the hour, seconds within the minute) and
renders `H:MM:SS` when hours are positive, else `M:SS` with seconds padded
to two digits; in particular 0 ↦ "0:00", 65 ↦ "1:05", 3661 ↦ "1:01:01" and
59.9 ↦ "0:59" (truncation, not rounding). -/
theorem c4_format_timestamp_spec :
    (∀ s : Rat, 0 ≤ s → formatTimestamp s = specTimestamp s)
    ∧ formatTimestamp 0 = "0:00"
    ∧ formatTimestamp 65 = "1:05"
    ∧ formatTimestamp 3661 = "1:01:01"
    ∧ formatTimestamp ((599 : Rat) / 10) = "0:59" := by
  refine ⟨formatTimestamp_eq_specTimestamp, ?_, ?_, ?_, ?_⟩ <;>
    · norm_num [formatTimestamp, jsMod, jsTrunc]
      rfl

/-- Witness for C4's universally quantified part at `s = 0`. -/
theorem c4_format_timestamp_spec_witness :
    formatTimestamp 0 = specTimestamp 0 :=
  c4_format_timestamp_spec.1 0 (le_refl 0)

/-- C8: on an empty fragment list and any cadence ≥ 1 the engine returns
plainly: markdown mode yields just the header (empty body) and interactive
mode yields no blocks; both are total functions, no exceptional path
exists. -/
theorem c8_empty_fragments_safe (c : Int) (h : 1 ≤ c) (title : Option String)
    (url : String) :
    formatTranscript title url c []
      = "## " ++ titleFallback title ++ "\n\n[Video Link](" ++ url ++ ")\n\n"
    ∧ setEphemeralBlocks c [] = [] :=
  ⟨rfl, rfl⟩

/-- Witness for C8 at cadence 1. -/
theorem c8_empty_fragments_safe_witness :
    formatTranscript none "u" 1 []
      = "## " ++ titleFallback none ++ "\n\n[Video Link](" ++ "u" ++ ")\n\n"
    ∧ setEphemeralBlocks 1 [] = [] :=
  c8_empty_fragments_safe 1 (by decide) none "u"

/-- C10: with cadence 0 both renderers terminate without raising: `i % 0`
is NaN so no test fires; the markdown body is every fragment text followed
by a space with no timestamp markers and no paragraph breaks, and the
interactive loop emits no blocks at all (everything stays in the buffer). -/
theorem c10_cadence_zero_behavior (title : Option String) (url : String)
    (lines : List Line) :
    formatTranscript title url 0 lines
      = "## " ++ titleFallback title ++ "\n\n[Video Link](" ++ url ++ ")\n\n"
        ++ joinSp lines
    ∧ setEphemeralBlocks 0 lines = []
    ∧ setEphemeralQuote 0 lines = joinSp lines := by
  refine ⟨?_, (interFold_zero_top lines).1, (interFold_zero_top lines).2⟩
  show List.foldl (mdStep 0) _ (List.enumFrom 0 lines) = _
  exact mdFold_zero lines 0 _

/-- C1 (evaluation at the failing input): markdown mode preserves every
fragment text, but the interactive grouping loop never flushes its trailing
buffer, so on three fragments `"a" "b" "c"` with cadence 2 the emitted
blocks carry only `"a b "`; their concatenation with the joining spaces
removed is `"ab"`, not the full fragment concatenation `"abc"`. -/
theorem c1_interactive_drops_trailing_text :
    setEphemeralBlocks 2 exLines3 = [⟨0, "a b "⟩]
    ∧ strConcat (exLines3.map Line.text) = "abc"
    ∧ dropSpaces (strConcat ((setEphemeralBlocks 2 exLines3).map Block.mergedText))
        ≠ strConcat (exLines3.map Line.text) := by
  decide

/-- C2 (evaluation at the failing input): on three fragments with cadence 2
the interactive loop emits one block, not `ceil(3/2) = 2`: the trailing
partially-filled buffer is dropped, not flushed. -/
theorem c2_interactive_block_count_not_ceil :
    (setEphemeralBlocks 2 exLines3).length = 1
    ∧ (setEphemeralBlocks 2 exLines3).length ≠ (exLines3.length + 2 - 1) / 2 := by
  decide

/-- C6 (evaluation at the failing input): the settings handler coerces only
a NaN parse to the default 5; the inputs "0" and "-3" are stored as 0 and
-3, below the safe minimum 1, and segmentation still runs with them rather
than failing fast: with cadence 0 the interactive loop emits no blocks and
the markdown body carries no timestamps. -/
theorem c6_cadence_not_validated :
    timestampModOnChange "0" = 0
    ∧ timestampModOnChange "-3" = -3
    ∧ ¬ (1 ≤ timestampModOnChange "0")
    ∧ setEphemeralBlocks (timestampModOnChange "0") exLines3 = []
    ∧ formatTranscript none "u" (timestampModOnChange "0") exLines3
        = "## YouTube Transcript\n\n[Video Link](u)\n\na b c " := by
  decide

/-- C5 counterexample: the claim ties frontmatter detection to the LF-only
pattern `^---\n(?:.+\n)+?---\n`, under which the CRLF document
`"---\r\na\r\n---\r\nx"` has no frontmatter, so with the cursor at offset 0
the planner would have to return insertion offset 0 and no leading newline;
the source's pattern `^---\r?\n(?:.+?\r?\n)+?---\r?\n` (dotall) does match,
and the planner returns offset 13 with a required leading newline. -/
theorem c5_insertion_planner_counterexample :
    specFmMatch crlfDoc.data = none
    ∧ insertionPlan crlfDoc 0 = (13, true)
    ∧ insertionPlan crlfDoc 0 ≠ (0, false) := by
  decide

/-- C5 as amended: the planner detects frontmatter exactly when the
source's own pattern `^---\r?\n(?:.+?\r?\n)+?---\r?\n` with the dotall flag
matches at offset 0 (`fmMatch`); when it matches with length `e` and the
cursor offset is at most `e`, the insertion point is `e` and a leading
newline is required unless the two characters at positions `e` and `e+1`
are both newlines; otherwise the insertion point is the cursor offset with
no leading newline. -/
theorem c5_insertion_planner_amended (content : String) (cursorOffset : Nat) :
    insertionPlan content cursorOffset
      = match fmMatch content.data with
        | some e =>
          if cursorOffset ≤ e then
            (e, ! decide (content.data.get? e = some '\n'
                  ∧ content.data.get? (e + 1) = some '\n'))
          else (cursorOffset, false)
        | none => (cursorOffset, false) := by
  cases hm : fmMatch content.data with
  | none => simp [insertionPlan, hm]
  | some e =>
    simp only [insertionPlan, hm]
    by_cases hc : cursorOffset ≤ e
    · simp only [if_pos hc, Prod.mk.injEq, true_and]
      have ha : (content.data.drop e).get? 0 = content.data.get? e := by
        rw [List.get?_eq_getElem?, List.getElem?_drop, Nat.add_zero, ← List.get?_eq_getElem?]
      have hb : (content.data.drop e).get? 1 = content.data.get? (e + 1) := by
        rw [List.get?_eq_getElem?, List.getElem?_drop, ← List.get?_eq_getElem?]
      have hiff : ((content.data.drop e).take 2 = ['\n', '\n'])
          ↔ (content.data.get? e = some '\n' ∧ content.data.get? (e + 1) = some '\n') := by
        rw [take_two_eq_iff, ha, hb]
      rw [decide_eq_decide.mpr hiff]
    · simp [if_neg hc]

/-- C9: for a non-empty fragment list of length `n` and cadence `c ≥ 1`,
the interactive loop itself emits exactly `⌊(n-1)/c⌋` blocks, each holding
exactly `c` consecutive fragments (the k-th block the fragments from index
`k·c`), and the 1 to `c` trailing fragments only stay in the buffer. -/
theorem c9_interactive_full_blocks_only (cN : Nat) (h1 : 1 ≤ cN) (lines : List Line)
    (h2 : 1 ≤ lines.length) :
    (setEphemeralBlocks (cN : Int) lines).length = (lines.length - 1) / cN
    ∧ (∀ k, k < (lines.length - 1) / cN →
        (setEphemeralBlocks (cN : Int) lines).get? k
          = some (specBlock ((lines.drop (k * cN)).take cN))
        ∧ ((lines.drop (k * cN)).take cN).length = cN)
    ∧ setEphemeralQuote (cN : Int) lines
        = joinSp (lines.drop ((lines.length - 1) / cN * cN))
    ∧ 1 ≤ lines.length - (lines.length - 1) / cN * cN
    ∧ lines.length - (lines.length - 1) / cN * cN ≤ cN := by
  have hcf := interFold_closed cN (by omega) lines
  have hblocks : setEphemeralBlocks (cN : Int) lines = specInteractiveBlocks cN lines := by
    rw [setEphemeralBlocks, hcf]
  have hquote : setEphemeralQuote (cN : Int) lines
      = joinSp (lines.drop ((lines.length - 1) / cN * cN)) := by
    rw [setEphemeralQuote, hcf]
  have hml : (lines.length - 1) / cN * cN ≤ lines.length - 1 := Nat.div_mul_le_self _ _
  have hdm := Nat.div_add_mod (lines.length - 1) cN
  have hmodlt : (lines.length - 1) % cN < cN := Nat.mod_lt _ (by omega)
  have hcomm : cN * ((lines.length - 1) / cN) = (lines.length - 1) / cN * cN :=
    Nat.mul_comm _ _
  refine ⟨?_, ?_, hquote, by omega, by omega⟩
  · rw [hblocks]
    simp [specInteractiveBlocks]
  · intro k hk
    have hkb : k * cN + cN ≤ lines.length := by
      have h4 : (k + 1) * cN ≤ (lines.length - 1) / cN * cN :=
        Nat.mul_le_mul_right cN hk
      have h5 := add_one_mul k cN
      omega
    constructor
    · rw [hblocks, specInteractiveBlocks, List.get?_eq_getElem?, List.getElem?_map,
        List.getElem?_range hk]
      rfl
    · rw [List.length_take, List.length_drop]
      omega

/-- Witness for C9's block-count part at cadence 2 on three fragments. -/
theorem c9_interactive_full_blocks_only_witness :
    (setEphemeralBlocks ((2 : Nat) : Int) exLines3).length = (exLines3.length - 1) / 2 :=
  (c9_interactive_full_blocks_only 2 (by decide) exLines3 (by decide)).1

/-- C7: with fragments ordered by non-decreasing offset and cadence ≥ 1,
every emitted block starts at the offset of the fragment that opened its
buffer — the first fragment of its cadence-chunk, at index `k·c` — and the
emitted start offsets are non-decreasing. -/
theorem c7_block_start_offsets (cN : Nat) (h1 : 1 ≤ cN) (lines : List Line)
    (hsort : List.Pairwise (fun a b => a.offset ≤ b.offset) lines) :
    (∀ k b, (setEphemeralBlocks (cN : Int) lines).get? k = some b →
        (lines.get? (k * cN)).map Line.offset = some b.startOffset)
    ∧ List.Pairwise (· ≤ ·)
        ((setEphemeralBlocks (cN : Int) lines).map Block.startOffset) := by
  have hcf := interFold_closed cN (by omega) lines
  have hblocks : setEphemeralBlocks (cN : Int) lines = specInteractiveBlocks cN lines := by
    rw [setEphemeralBlocks, hcf]
  have hb : ∀ k, k < (lines.length - 1) / cN → k * cN < lines.length := by
    intro k hk
    have h3 := Nat.div_mul_le_self (lines.length - 1) cN
    have h4 : (k + 1) * cN ≤ (lines.length - 1) / cN * cN := Nat.mul_le_mul_right cN hk
    have h5 := add_one_mul k cN
    omega
  have hstart : ∀ (k : Nat) (hkm : k < (lines.length - 1) / cN),
      (specBlock ((lines.drop (k * cN)).take cN)).startOffset
        = (lines.get ⟨k * cN, hb k hkm⟩).offset := by
    intro k hkm
    simp [specBlock, head_take_chunk cN (by omega) lines (k * cN) (hb k hkm)]
  have hmono := List.pairwise_iff_get.mp hsort
  constructor
  · intro k b hkb
    rw [hblocks] at hkb
    have hklen : k < (lines.length - 1) / cN := by
      rcases List.get?_eq_some.mp hkb with ⟨hlt, _⟩
      simpa [specInteractiveBlocks] using hlt
    rw [specInteractiveBlocks, List.get?_eq_getElem?, List.getElem?_map,
      List.getElem?_range hklen] at hkb
    have hbb : b = specBlock ((lines.drop (k * cN)).take cN) := by
      cases hkb
      rfl
    rw [List.get?_eq_get (hb k hklen), hbb]
    show some ((lines.get ⟨k * cN, hb k hklen⟩).offset) = _
    rw [hstart k hklen]
  · rw [hblocks, specInteractiveBlocks, List.map_map, List.pairwise_map,
      List.pairwise_iff_get]
    intro i j hij
    have hi : i.1 < (lines.length - 1) / cN := by
      have := i.2
      simpa using this
    have hj : j.1 < (lines.length - 1) / cN := by
      have := j.2
      simpa using this
    rw [List.get_range, List.get_range]
    show (specBlock ((lines.drop (i.1 * cN)).take cN)).startOffset
        ≤ (specBlock ((lines.drop (j.1 * cN)).take cN)).startOffset
    rw [hstart i.1 hi, hstart j.1 hj]
    rcases Nat.lt_or_ge (i.1 * cN) (j.1 * cN) with hlt | hge
    · exact hmono ⟨i.1 * cN, hb i.1 hi⟩ ⟨j.1 * cN, hb j.1 hj⟩ hlt
    · have hij1 : i.1 < j.1 := hij
      have h5 := add_one_mul i.1 cN
      have h6 : (i.1 + 1) * cN ≤ j.1 * cN := Nat.mul_le_mul_right cN hij1
      omega

/-- Witness for C7 at cadence 2 on three sorted fragments. -/
theorem c7_block_start_offsets_witness :
    (∀ k b, (setEphemeralBlocks ((2 : Nat) : Int) exLines3).get? k = some b →
        (exLines3.get? (k * 2)).map Line.offset = some b.startOffset)
    ∧ List.Pairwise (· ≤ ·)
        ((setEphemeralBlocks ((2 : Nat) : Int) exLines3).map Block.startOffset) :=
  c7_block_start_offsets 2 (by decide) exLines3 (by decide)
